import Mathlib

/-!
Shallow embedding of the IMAP Lambda layer client
(`nodejs/imap-lambda-layer/imap-client.mjs`).  JavaScript strings are
modelled as Lean `String` values (lists of characters), the external
ImapFlow protocol engine as an explicit oracle record, and each `async`
method as a pure function from the oracle and the current state to a
result together with an instrumentation trace (lock acquire/release
counts, engine-call counts) where a claim needs one.
-/

namespace ImapLayer

/-- Whitespace characters removed by `String.prototype.trim` (ASCII range,
which is all that occurs in mail header text). -/
def isJsSpace (c : Char) : Bool :=
  c = ' ' || c = '\t' || c = '\n' || c = '\r' || c = '\x0B' || c = '\x0C'

/-- Trim leading and trailing whitespace from a character list. -/
def trimCharList (l : List Char) : List Char :=
  ((l.dropWhile isJsSpace).reverse.dropWhile isJsSpace).reverse

/-- Embeds `s.trim()`. -/
def jsTrim (s : String) : String := ⟨trimCharList s.data⟩

/-- Does the pattern (second argument) occur at the head of the text
(first argument)? -/
def matchesAt : List Char → List Char → Bool
  | _, [] => true
  | [], _ :: _ => false
  | c :: cs, p :: ps => c = p && matchesAt cs ps

/-- First position (counting from `i`) in the text at which the pattern
occurs, or `none`. -/
def indexOfAux (pat : List Char) : List Char → Nat → Option Nat
  | [], i => if matchesAt [] pat then some i else none
  | c :: rest, i =>
    if matchesAt (c :: rest) pat then some i else indexOfAux pat rest (i + 1)

/-- Embeds `s.indexOf(pat)`: first index of `pat` in `s`, `-1` when absent. -/
def jsIndexOf (s pat : String) : Int :=
  match indexOfAux pat.data s.data 0 with
  | some n => (n : Int)
  | none => -1

/-- Embeds `s.includes(pat)`. -/
def jsIncludes (s pat : String) : Bool := (indexOfAux pat.data s.data 0).isSome

/-- Embeds `s.substring(n)` (from character `n` to the end). -/
def jsSubstringFrom (s : String) (n : Nat) : String := ⟨s.data.drop n⟩

/-- Embeds `s.substring(0, n)`. -/
def jsSubstringTo (s : String) (n : Nat) : String := ⟨s.data.take n⟩

/-- Embeds `ImapClient.#extractSesIdFromHeaders(headerStr)`: if the header text
contains both `amazonaws.com` and `SMTP id` and the first occurrence of
`SMTP id` is at a positive index, take the text starting 8 characters after
that occurrence, trim it, and cut it at the first space if one occurs at a
positive index, else at the first newline, else at the first semicolon,
else keep it whole; otherwise return `null` (`none`). -/
def extractSesIdFromHeaders (headerStr : String) : Option String :=
  if jsIncludes headerStr "amazonaws.com" && jsIncludes headerStr "SMTP id" then
    let smtpIdIndex := jsIndexOf headerStr "SMTP id"
    if smtpIdIndex > 0 then
      let afterSmtpId := jsTrim (jsSubstringFrom headerStr (smtpIdIndex + 8).toNat)
      let endOfIdSpace := jsIndexOf afterSmtpId " "
      let endOfIdNewline := jsIndexOf afterSmtpId "\n"
      let endOfIdSemicolon := jsIndexOf afterSmtpId ";"
      if endOfIdSpace > 0 then
        some (jsTrim (jsSubstringTo afterSmtpId endOfIdSpace.toNat))
      else if endOfIdNewline > 0 then
        some (jsTrim (jsSubstringTo afterSmtpId endOfIdNewline.toNat))
      else if endOfIdSemicolon > 0 then
        some (jsTrim (jsSubstringTo afterSmtpId endOfIdSemicolon.toNat))
      else
        some (jsTrim afterSmtpId)
    else
      none
  else
    none

/-- Session state of one `ImapClient`: the `isConnected` flag together with
counters of how many times the underlying engine's `connect()` handshake and
`logout()` were invoked (the observable engine-call counts). -/
structure Session where
  isConnected : Bool
  handshakes : Nat
  logouts : Nat
deriving DecidableEq, Repr

/-- Outcome of one call into the underlying protocol engine: it either
completes normally or raises. -/
inductive EngineCall where
  | ok
  | raise
deriving DecidableEq, Repr

/-- Embeds `ImapClient.connect()`: `if (!this.isConnected) { await this.client.connect();
this.isConnected = true; }`.  When the engine handshake raises, the exception
propagates before the flag assignment runs.  Returns the post-state and
whether the call raised. -/
def connectOp (engine : EngineCall) (s : Session) : Session × Bool :=
  if s.isConnected then (s, false)
  else
    match engine with
    | .ok => ({ s with isConnected := true, handshakes := s.handshakes + 1 }, false)
    | .raise => ({ s with handshakes := s.handshakes + 1 }, true)

/-- Embeds `ImapClient.disconnect()`: `if (this.isConnected) { await this.client.logout();
this.isConnected = false; }`.  There is no try/finally here: when `logout()`
raises, the exception propagates before `this.isConnected = false` runs, so
the flag keeps its previous value.  Returns the post-state and whether the
call raised. -/
def disconnectOp (engine : EngineCall) (s : Session) : Session × Bool :=
  if s.isConnected then
    match engine with
    | .ok => ({ s with isConnected := false, logouts := s.logouts + 1 }, false)
    | .raise => ({ s with logouts := s.logouts + 1 }, true)
  else (s, false)

/-- One message summary as handed back by the engine's fetch operations:
the numeric handle, the decoded `received` header text, the parsed header
map, and (for `headersBuf: true` fetches) the optional raw header block. -/
structure Msg where
  uid : Nat
  headers : String
  headerMap : List (String × String)
  headersBuf : Option String
deriving DecidableEq, Repr

/-- Oracle for the external ImapFlow engine as consumed by the client:
whether `connect()` and `getMailboxLock(folder)` succeed, the result of a
Message-ID `search`, of `fetchOne`, of a ranged `fetch`, of `messageMove`,
and the selected mailbox's `exists` count.  `Except Unit` distinguishes a
normal completion from a raised protocol error. -/
structure Engine where
  connectOk : Bool
  lockOk : String → Bool
  search : String → Except Unit (List Nat)
  fetchOne : Nat → Except Unit (Option Msg)
  fetchRange : Nat → Nat → Except Unit (List Msg)
  messageMove : Nat → String → Except Unit Unit
  mailboxExists : Nat

/-- Result of one public operation: the value it returned, or the fact that
it raised. -/
inductive OpOutcome (α : Type) where
  | ok (a : α)
  | raised
deriving DecidableEq, Repr

/-- Lock instrumentation: how many times the engine's lock was acquired and
how many times `lock.release()` ran during one operation. -/
structure OpTrace where
  acquires : Nat
  releases : Nat
deriving DecidableEq, Repr

/-- Embeds `const lock = await this.client.getMailboxLock(folder); try { body }
finally { lock.release(); }`: when acquisition fails nothing was acquired
and the body never runs; otherwise the body runs and the `finally` clause
releases the lock exactly once whether the body returned or raised. -/
def withMailboxLock {α : Type} (lockOk : Bool) (body : Except Unit α) :
    OpOutcome α × OpTrace :=
  if lockOk then
    match body with
    | .ok a => (.ok a, ⟨1, 1⟩)
    | .error _ => (.raised, ⟨1, 1⟩)
  else (.raised, ⟨0, 0⟩)

/-- Every public mailbox operation starts with `await this.connect()`; a
handshake failure propagates before the lock is touched. -/
def runLocked {α : Type} (eng : Engine) (folder : String) (body : Except Unit α) :
    OpOutcome α × OpTrace :=
  if eng.connectOk then withMailboxLock (eng.lockOk folder) body
  else (.raised, ⟨0, 0⟩)

/-- Embeds `messageId.replace(/^<|>$/g, "")`: remove one leading `<` and one
trailing `>` when present. -/
def cleanMessageId (s : String) : String :=
  let l := s.data
  let l1 := if l.head? = some '<' then l.tail else l
  ⟨if l1.getLast? = some '>' then l1.dropLast else l1⟩

/-- The `identifier` argument of the header operations: `typeof identifier
=== "number"` distinguishes a session-scoped numeric handle from a logical
Message-ID string. -/
inductive Identifier where
  | num (n : Nat)
  | str (s : String)
deriving DecidableEq, Repr

/-- Shared identifier-resolution shape of `getMessageHeaders` and
`getRawMessageHeaders`: a numeric identifier passes through unchanged; a
string is bracket-stripped and searched by Message-ID header, the first hit
(if any) becoming the handle; an empty search result is the not-found
outcome (`none`), not an error. -/
def resolveIdentifier (search : String → Except Unit (List Nat)) :
    Identifier → Except Unit (Option Nat)
  | .num n => .ok (some n)
  | .str s =>
    match search (cleanMessageId s) with
    | .error e => .error e
    | .ok [] => .ok none
    | .ok (u :: _) => .ok (some u)

/-- Body of `findMessageByMessageId` inside the lock: search, early `null`
return when nothing matched, otherwise fetch the first hit. -/
def findMessageByMessageIdBody (eng : Engine) (messageId : String) :
    Except Unit (Option Msg) :=
  match eng.search (cleanMessageId messageId) with
  | .error e => .error e
  | .ok [] => .ok none
  | .ok (u :: _) =>
    match eng.fetchOne u with
    | .error e => .error e
    | .ok m => .ok m

/-- Embeds `ImapClient.findMessageByMessageId(folder, messageId)`. -/
def findMessageByMessageId (eng : Engine) (folder messageId : String) :
    OpOutcome (Option Msg) × OpTrace :=
  runLocked eng folder (findMessageByMessageIdBody eng messageId)

/-- Body of `moveMessage` inside the lock: issue the move, return `true`. -/
def moveMessageBody (eng : Engine) (uid : Nat) (targetFolder : String) :
    Except Unit Bool :=
  match eng.messageMove uid targetFolder with
  | .error e => .error e
  | .ok _ => .ok true

/-- Embeds `ImapClient.moveMessage(sourceFolder, targetFolder, uid)`. -/
def moveMessage (eng : Engine) (sourceFolder targetFolder : String) (uid : Nat) :
    OpOutcome Bool × OpTrace :=
  runLocked eng sourceFolder (moveMessageBody eng uid targetFolder)

/-- The ascending sequence window `a:b` of a mailbox whose summary at
sequence number `n` is `f n`: messages `a, a+1, …, b` in fetch order
(empty when `a > b`). -/
def seqWindow (f : Nat → Msg) (a b : Nat) : List Msg :=
  (List.range' a (b + 1 - a)).map f

/-- Body of `listMessages` inside the lock.  `if (!mailbox.exists) return []`
(zero is falsy); otherwise fetch `from:to` with
`from = Math.max(1, exists - limit + 1)`, `to = exists`, and reverse the
fetch order.  On naturals `max 1 (n - limit + 1)` agrees with the JS float
computation for every `n` and `limit`: whenever `n - limit + 1` would be
non-positive, truncated subtraction also lands the maximum at `1`. -/
def listMessagesBody (eng : Engine) (limit : Nat) : Except Unit (List Msg) :=
  if eng.mailboxExists = 0 then .ok []
  else
    match eng.fetchRange (max 1 (eng.mailboxExists - limit + 1)) eng.mailboxExists with
    | .error e => .error e
    | .ok msgs => .ok msgs.reverse

/-- Embeds `ImapClient.listMessages(folder, limit)`. -/
def listMessages (eng : Engine) (folder : String) (limit : Nat) :
    OpOutcome (List Msg) × OpTrace :=
  runLocked eng folder (listMessagesBody eng limit)

/-- Embeds `const sesId = this.#extractSesIdFromHeaders(headerStr); if (sesId)
message.sesId = sesId;` — the empty string is falsy, so it is not attached. -/
def attachSesId (m : Msg) : Msg × Option String :=
  match extractSesIdFromHeaders m.headers with
  | some sid => if sid = "" then (m, none) else (m, some sid)
  | none => (m, none)

/-- Body of `listSESMessages` inside the lock: same windowing as
`listMessages`, each fetched message annotated with its derived id. -/
def listSESMessagesBody (eng : Engine) (limit : Nat) :
    Except Unit (List (Msg × Option String)) :=
  if eng.mailboxExists = 0 then .ok []
  else
    match eng.fetchRange (max 1 (eng.mailboxExists - limit + 1)) eng.mailboxExists with
    | .error e => .error e
    | .ok msgs => .ok ((msgs.map attachSesId).reverse)

/-- Embeds `ImapClient.listSESMessages(folder, limit)`. -/
def listSESMessages (eng : Engine) (folder : String) (limit : Nat) :
    OpOutcome (List (Msg × Option String)) × OpTrace :=
  runLocked eng folder (listSESMessagesBody eng limit)

/-- Embeds `for (let i = mailbox.exists; i > 0; i--) { … }` of
`searchMessageBySesId`: fetch each sequence number from newest down to 1,
stop at the first message whose extracted id equals the target. -/
def searchBySesIdLoop (eng : Engine) (sesId : String) :
    Nat → Except Unit (Option (Msg × String))
  | 0 => .ok none
  | i + 1 =>
    match eng.fetchOne (i + 1) with
    | .error e => .error e
    | .ok none => searchBySesIdLoop eng sesId i
    | .ok (some m) =>
      if extractSesIdFromHeaders m.headers = some sesId then .ok (some (m, sesId))
      else searchBySesIdLoop eng sesId i

/-- Body of `searchMessageBySesId` inside the lock. -/
def searchMessageBySesIdBody (eng : Engine) (sesId : String) :
    Except Unit (Option (Msg × String)) :=
  if eng.mailboxExists = 0 then .ok none
  else searchBySesIdLoop eng sesId eng.mailboxExists

/-- Embeds `ImapClient.searchMessageBySesId(folder, sesId)`. -/
def searchMessageBySesId (eng : Engine) (folder sesId : String) :
    OpOutcome (Option (Msg × String)) × OpTrace :=
  runLocked eng folder (searchMessageBySesIdBody eng sesId)

/-- What `getMessageHeaders` hands back: `null`, one looked-up header value,
or the headers map converted to a plain object. -/
inductive HeadersReturn where
  | null
  | value (v : Option String)
  | object (entries : List (String × String))
deriving DecidableEq, Repr

/-- Embeds `headersObject[key] = value` on a plain JS object rendered as an
insertion-ordered association list: overwrite in place or append. -/
def objAssign (obj : List (String × String)) (k v : String) :
    List (String × String) :=
  if obj.any (fun p => p.1 = k) then
    obj.map (fun p => if p.1 = k then (k, v) else p)
  else obj ++ [(k, v)]

/-- Embeds `const headersObject = {}; for (const [key, value] of message.headers)
headersObject[key] = value;`. -/
def headersToObject (m : List (String × String)) : List (String × String) :=
  m.foldl (fun o kv => objAssign o kv.1 kv.2) []

/-- Embeds `message.headers.get(headerName)` on the parsed header map. -/
def mapGet (m : List (String × String)) (k : String) : Option String :=
  (m.find? (fun p => p.1 = k)).map (fun p => p.2)

/-- Body of `getMessageHeaders` inside the lock. -/
def getMessageHeadersBody (eng : Engine) (identifier : Identifier)
    (headerName : Option String) : Except Unit HeadersReturn :=
  match resolveIdentifier eng.search identifier with
  | .error e => .error e
  | .ok none => .ok .null
  | .ok (some uid) =>
    match eng.fetchOne uid with
    | .error e => .error e
    | .ok none => .ok .null
    | .ok (some msg) =>
      match headerName with
      | some name => .ok (.value (mapGet msg.headerMap name))
      | none => .ok (.object (headersToObject msg.headerMap))

/-- Embeds `ImapClient.getMessageHeaders(folder, identifier, headerName)`. -/
def getMessageHeaders (eng : Engine) (folder : String) (identifier : Identifier)
    (headerName : Option String) : OpOutcome HeadersReturn × OpTrace :=
  runLocked eng folder (getMessageHeadersBody eng identifier headerName)

/-- Continuation line of a folded header: begins with a whitespace
character. -/
def isFoldedContinuation (l : List Char) : Bool :=
  match l with
  | [] => false
  | c :: _ => isJsSpace c

/-- JavaScript `split` on a single-character separator, on character lists:
the empty list yields `[[]]`, and `n` separators yield `n + 1` pieces. -/
def splitCharList (sep : Char) : List Char → List (List Char)
  | [] => [[]]
  | c :: rest =>
    if c = sep then [] :: splitCharList sep rest
    else
      match splitCharList sep rest with
      | [] => [[c]]
      | h :: t => (c :: h) :: t

/-- JavaScript `join` with a single-character separator, on character
lists. -/
def joinCharList (sep : Char) : List (List Char) → List Char
  | [] => []
  | [l] => l
  | l :: l' :: ls => l ++ sep :: joinCharList sep (l' :: ls)

/-- Embeds `s.split(sep)` for a single-character separator. -/
def jsSplit (s : String) (sep : Char) : List String :=
  (splitCharList sep s.data).map (fun l => ⟨l⟩)

/-- Embeds `parts.join(sep)` for a single-character separator. -/
def jsJoin (sep : Char) (parts : List String) : String :=
  ⟨joinCharList sep (parts.map String.data)⟩

/-- Does this line open the requested header?  Embeds the
`^headerName:\s*(.+` part of the regex in `getRawMessageHeaders`:
case-insensitive match of `headerName:` at the line start, with at least one
further character on the line that is not a bare carriage return. -/
def headerLineStarts (nameLower : List Char) (line : List Char) : Bool :=
  matchesAt (line.map Char.toLower) (nameLower ++ [':']) &&
    (line.drop (nameLower.length + 1)).any (fun c => c ≠ '\r')

/-- First line opening the requested header, with the lines after it. -/
def findHeaderLine (nameLower : List Char) :
    List (List Char) → Option (List Char × List (List Char))
  | [] => none
  | l :: ls =>
    if headerLineStarts nameLower l then some (l, ls)
    else findHeaderLine nameLower ls

/-- Modelled effect of
`new RegExp("^" + headerName + ":\\s*(.+(?:\\r?\\n\\s+.+)*)", "im")` and
`headersString.match(...)` in `getRawMessageHeaders` on well-formed folded
headers: the first line that opens the header (case-insensitively) together
with the whitespace-led continuation lines that follow it, rejoined on the
line breaks; carriage returns stay attached to their lines. -/
def rawHeaderMatch (headerName : String) (text : String) : Option String :=
  match findHeaderLine (headerName.data.map Char.toLower)
      (splitCharList '\n' text.data) with
  | none => none
  | some (l, rest) =>
    some ⟨joinCharList '\n' (l :: rest.takeWhile isFoldedContinuation)⟩

/-- Body of `getRawMessageHeaders` inside the lock.  `if (!message ||
!message.headersBuf) return null` — an absent raw header block is the
not-found outcome. -/
def getRawMessageHeadersBody (eng : Engine) (identifier : Identifier)
    (headerName : Option String) : Except Unit (Option String) :=
  match resolveIdentifier eng.search identifier with
  | .error e => .error e
  | .ok none => .ok none
  | .ok (some uid) =>
    match eng.fetchOne uid with
    | .error e => .error e
    | .ok none => .ok none
    | .ok (some msg) =>
      match msg.headersBuf with
      | none => .ok none
      | some buf =>
        match headerName with
        | some name => .ok (rawHeaderMatch name buf)
        | none => .ok (some buf)

/-- Embeds `ImapClient.getRawMessageHeaders(folder, identifier, headerName)`. -/
def getRawMessageHeaders (eng : Engine) (folder : String)
    (identifier : Identifier) (headerName : Option String) :
    OpOutcome (Option String) × OpTrace :=
  runLocked eng folder (getRawMessageHeadersBody eng identifier headerName)

/-- A minimal message summary used by concrete witness engines. -/
def sampleMsg (n : Nat) : Msg := ⟨n, "", [], none⟩

/-- A concrete engine for witness evaluations: a three-message mailbox whose
ranged fetch returns the requested ascending window and whose other commands
all complete. -/
def sampleEngine : Engine where
  connectOk := true
  lockOk := fun _ => true
  search := fun _ => .ok []
  fetchOne := fun _ => .ok none
  fetchRange := fun a b => .ok (seqWindow sampleMsg a b)
  messageMove := fun _ _ => .ok ()
  mailboxExists := 3

/-- Result of the engine's `status(path, {uidValidity: true})` call: a
status object (possibly null, carried as an `Option`), or a raised protocol
error carrying its `error.code`. -/
inductive StatusOutcome where
  | ok (status : Option Unit)
  | err (code : String)
deriving DecidableEq, Repr

/-- One character of `folderPath.replace(/[\/\\]/g, this.delimiter)` with
the client's fixed delimiter `'/'`: forward and backward slashes become the
delimiter, everything else is kept. -/
def normChar (c : Char) : Char := if c = '/' ∨ c = '\\' then '/' else c

/-- Embeds `folderPath.replace(/[\/\\]/g, this.delimiter)`. -/
def normalizeSeparators (s : String) : String := ⟨s.data.map normChar⟩

/-- Embeds `ImapClient.folderExists(folderPath)` given the engine's status oracle:
normalize the path and query status; a non-null response means the folder
exists; the `NONEXISTENT` protocol error returns `false`, and any other
protocol error is logged and also returns `false`. -/
def folderExists (statusOf : String → StatusOutcome) (folderPath : String) : Bool :=
  match statusOf (normalizeSeparators folderPath) with
  | .ok st => st.isSome
  | .err code => if code = "NONEXISTENT" then false else false

/-- The mailbox store of a server, as the list of existing mailbox paths:
its `status` answers non-null for an existing mailbox and raises
`NONEXISTENT` otherwise. -/
def serverStatus (fs : List String) (p : String) : StatusOutcome :=
  if p ∈ fs then .ok (some ()) else .err "NONEXISTENT"

/-- Embeds `this.folderExists(path)` as called from `folderMake`, against a mailbox
store. -/
def folderExistsOn (fs : List String) (p : String) : Bool :=
  folderExists (serverStatus fs) p

/-- The path sanitization at the top of `folderMake`: replace all slashes
with the delimiter, split on it, drop empty parts (`filter(Boolean)`),
rejoin on the delimiter. -/
def normalizeFolderPath (p : String) : String :=
  jsJoin '/' ((jsSplit (normalizeSeparators p) '/').filter (fun s => s ≠ ""))

/-- Embeds `currentPath = currentPath ? currentPath + this.delimiter + part : part`
— the empty string is falsy. -/
def extendPath (parent seg : String) : String :=
  if parent = "" then seg else parent ++ "/" ++ seg

/-- The creation loop of `folderMake`: starting from the deepest existing
parent, extend the path by one segment at a time and `mailboxCreate` each
extension (modelled as adding the path to the store, every creation
completing).  Returns the updated store and the created paths in order. -/
def makeSegs (fs : List String) (parent : String) :
    List String → List String × List String
  | [] => (fs, [])
  | seg :: rest =>
    let next := extendPath parent seg
    let r := makeSegs (next :: fs) next rest
    (r.1, next :: r.2)

/-- Outcome of `folderMake`: the boolean it returns, the resulting mailbox
store, and the list of mailboxes it created, in creation order. -/
structure MakeResult where
  ok : Bool
  fs : List String
  created : List String
deriving DecidableEq, Repr

/-- The upward walk of `folderMake` (`while (parts.length > 0) { parts.pop();
… }`).  The mutable `parts` array — always a prefix of the full segment
list — is represented by its length `n`: each step pops one segment, and if
the remaining prefix names an existing folder, the missing segments below it
are created; when no ancestor exists the entire path is created from the
root. -/
def folderMakeLoop (fs : List String) (allSegs : List String) :
    Nat → MakeResult
  | 0 =>
    let r := makeSegs fs "" allSegs
    ⟨true, r.1, r.2⟩
  | n + 1 =>
    let currentPath := jsJoin '/' (allSegs.take n)
    if folderExistsOn fs currentPath then
      let r := makeSegs fs currentPath (allSegs.drop n)
      ⟨true, r.1, r.2⟩
    else folderMakeLoop fs allSegs n

/-- Embeds `ImapClient.folderMake(folderPath)` over a mailbox store: sanitize the
path; if it already exists return `true` at once; otherwise walk upward to
the deepest existing ancestor and create every missing segment from there
down.  `mailboxCreate` is modelled as always completing, so the `catch`
branch returning `false` is never taken. -/
def folderMake (fs : List String) (folderPath : String) : MakeResult :=
  let norm := normalizeFolderPath folderPath
  if folderExistsOn fs norm then ⟨true, fs, []⟩
  else folderMakeLoop fs (jsSplit norm '/') (jsSplit norm '/').length

/-- The final value of `currentPath` after the creation loop extends the
parent by each segment in turn. -/
def pathFold (parent : String) (segs : List String) : String :=
  segs.foldl extendPath parent

/-- The tail a join contributes after its first element: a separator before
each further segment. -/
def sepJoinTail : List String → String
  | [] => ""
  | s :: rest => "/" ++ s ++ sepJoinTail rest

/-- Connection configuration handed to `getImapClient` and `new ImapClient`:
host, port, the credential pair, and the secure flag. -/
structure ClientConfig where
  host : String
  port : Nat
  user : String
  pass : String
  secure : Bool
deriving DecidableEq, Repr

/-- The template literal key of the instance cache:
`` `${config.host}:${config.port}:${config.auth.user}` ``. -/
def configKey (c : ClientConfig) : String :=
  c.host ++ ":" ++ toString c.port ++ ":" ++ c.user

/-- One cached `ImapClient` instance: its object identity, and the
configuration it was constructed from (`this.config = config` in the
constructor, never reassigned afterwards). -/
structure ClientInst where
  id : Nat
  config : ClientConfig
deriving DecidableEq, Repr

/-- The module-level `clientInstances` map, as an insertion-ordered
association list, together with a counter producing fresh instance
identities. -/
structure CacheState where
  entries : List (String × ClientInst)
  nextId : Nat
deriving DecidableEq, Repr

/-- The cache at module load: `new Map()`. -/
def emptyCache : CacheState := ⟨[], 0⟩

/-- Embeds `getImapClient(config)`: compute the key; when the map lacks it
(`!clientInstances.has(key)`), construct a new client and store it; return
`clientInstances.get(key)`. -/
def getImapClient (st : CacheState) (c : ClientConfig) :
    ClientInst × CacheState :=
  match st.entries.find? (fun e => e.1 = configKey c) with
  | some e => (e.2, st)
  | none =>
    (⟨st.nextId, c⟩,
      ⟨st.entries ++ [(configKey c, ⟨st.nextId, c⟩)], st.nextId + 1⟩)

/-- Well-formedness of the cache: stored identities lie below the fresh
counter, and distinct keys hold distinct instances.  Holds for the empty
cache and is preserved by `getImapClient`. -/
def cacheWF (st : CacheState) : Prop :=
  (∀ e ∈ st.entries, e.2.id < st.nextId) ∧
  ∀ e ∈ st.entries, ∀ e2 ∈ st.entries, e.1 ≠ e2.1 → e.2.id ≠ e2.2.id

/-- A configuration whose host field contains a colon. -/
def cfgCollideA : ClientConfig := ⟨"h:1", 2, "u", "pw", true⟩

/-- A configuration differing from `cfgCollideA` in host, port and user yet
colliding with it on the derived cache key `"h:1:2:u"`. -/
def cfgCollideB : ClientConfig := ⟨"h", 1, "2:u", "pw", true⟩

/-- A plain sample configuration for witness evaluations. -/
def cfgSample : ClientConfig := ⟨"imap.example.com", 993, "alice", "pw", true⟩

/-- Same cache identity as `cfgSample`, different password and secure
flag. -/
def cfgSampleB : ClientConfig :=
  ⟨"imap.example.com", 993, "alice", "other-pw", false⟩

end ImapLayer

namespace ImapLayer

/-- Claim C1 (counter-evidence): the code is missing the unconditional reset
the specification requires.  Starting from a connected session, when the
engine's `logout()` raises, `disconnect()` exits with `isConnected` still
`true` (and one logout attempted), because the `isConnected = false`
assignment is only reached after a successful logout. -/
theorem disconnect_leaves_connected_on_logout_failure :
    ((disconnectOp .raise ⟨true, 1, 0⟩).1).isConnected = true ∧
    (disconnectOp .raise ⟨true, 1, 0⟩).2 = true := by
  constructor <;> rfl

/-- Claim C2 (counter-evidence): on the specification's own sample header —
provider domain marker elsewhere in the text and `SMTP id ABC123; Mon, ...` —
the code extracts `"ABC123;"` (semicolon included), not `"ABC123"`: the
space delimiter is checked first, and the first space lies after the
semicolon, so the cut keeps the semicolon. -/
theorem extractSesId_keeps_semicolon_on_spec_sample :
    extractSesIdFromHeaders "x amazonaws.com SMTP id ABC123; Mon, 1 Jan" =
      some "ABC123;" ∧ "ABC123;" ≠ "ABC123" := by
  constructor
  · rfl
  · decide

/-- Claim C6: with a successfully completing engine, `connect()` twice in a
row reaches the state of a single `connect()` (the second call is a no-op),
performing exactly one handshake from a disconnected start; `disconnect()`
twice leaves `isConnected = false` after each call and performs at most one
logout. -/
theorem connect_disconnect_idempotent (s : Session) :
    (connectOp .ok ((connectOp .ok s).1)).1 = (connectOp .ok s).1 ∧
    ((connectOp .ok ((connectOp .ok s).1)).1).handshakes =
      s.handshakes + (if s.isConnected then 0 else 1) ∧
    ((disconnectOp .ok s).1).isConnected = false ∧
    ((disconnectOp .ok ((disconnectOp .ok s).1)).1).isConnected = false ∧
    ((disconnectOp .ok ((disconnectOp .ok s).1)).1).logouts ≤ s.logouts + 1 ∧
    (disconnectOp .ok ((disconnectOp .ok s).1)).1 = (disconnectOp .ok s).1 := by
  rcases s with ⟨c, h, g⟩
  cases c <;> simp [connectOp, disconnectOp]

theorem str_data_append (a b : String) : (a ++ b).data = a.data ++ b.data := by
  rcases a with ⟨la⟩; rcases b with ⟨lb⟩; rfl

theorem str_mk_data (s : String) : (⟨s.data⟩ : String) = s := by
  rcases s with ⟨l⟩; rfl

theorem runLocked_trace_balanced {α : Type} (eng : Engine) (folder : String)
    (body : Except Unit α) :
    (runLocked eng folder body).2.acquires = (runLocked eng folder body).2.releases := by
  cases hc : eng.connectOk <;> cases hl : eng.lockOk folder <;> cases body <;>
    simp [runLocked, withMailboxLock, hc, hl]

/-- Claim C3: every locked mailbox operation, on every execution path —
normal return, early not-found return, or a protocol failure raised inside
the lock — acquires and releases the mailbox lock in balance: the acquire
count equals the release count. -/
theorem locked_operations_balance_lock (eng : Engine)
    (folder src tgt messageId sesId : String) (uid limit : Nat)
    (idf : Identifier) (hn : Option String) :
    ((findMessageByMessageId eng folder messageId).2.acquires =
        (findMessageByMessageId eng folder messageId).2.releases) ∧
    ((moveMessage eng src tgt uid).2.acquires =
        (moveMessage eng src tgt uid).2.releases) ∧
    ((listMessages eng folder limit).2.acquires =
        (listMessages eng folder limit).2.releases) ∧
    ((listSESMessages eng folder limit).2.acquires =
        (listSESMessages eng folder limit).2.releases) ∧
    ((searchMessageBySesId eng folder sesId).2.acquires =
        (searchMessageBySesId eng folder sesId).2.releases) ∧
    ((getMessageHeaders eng folder idf hn).2.acquires =
        (getMessageHeaders eng folder idf hn).2.releases) ∧
    ((getRawMessageHeaders eng folder idf hn).2.acquires =
        (getRawMessageHeaders eng folder idf hn).2.releases) :=
  ⟨runLocked_trace_balanced eng folder _, runLocked_trace_balanced eng src _,
    runLocked_trace_balanced eng folder _, runLocked_trace_balanced eng folder _,
    runLocked_trace_balanced eng folder _, runLocked_trace_balanced eng folder _,
    runLocked_trace_balanced eng folder _⟩

/-- Claim C4: over an engine whose ranged fetch returns one summary per
sequence number of the requested ascending window, `listMessages` on a
mailbox reporting `N` messages returns exactly the window
`[max 1 (N - limit + 1), N]` in reversed (newest-first) fetch order; the
result has `min N limit` entries, and `N = 0` yields the empty list. -/
theorem listMessages_windowing (eng : Engine) (f : Nat → Msg) (folder : String)
    (limit : Nat) (hc : eng.connectOk = true) (hl : eng.lockOk folder = true)
    (hfetch : ∀ a b, eng.fetchRange a b = .ok (seqWindow f a b))
    (hlim : 1 ≤ limit) :
    (listMessages eng folder limit).1 =
      .ok ((seqWindow f (max 1 (eng.mailboxExists - limit + 1))
        eng.mailboxExists).reverse) ∧
    ((seqWindow f (max 1 (eng.mailboxExists - limit + 1))
        eng.mailboxExists).reverse).length = min eng.mailboxExists limit ∧
    (eng.mailboxExists = 0 → (listMessages eng folder limit).1 = .ok []) := by
  have hbody :
      listMessagesBody eng limit =
        .ok ((seqWindow f (max 1 (eng.mailboxExists - limit + 1))
          eng.mailboxExists).reverse) := by
    unfold listMessagesBody
    by_cases h0 : eng.mailboxExists = 0
    · simp [h0, seqWindow]
    · simp [h0, hfetch]
  refine ⟨?_, ?_, ?_⟩
  · simp [listMessages, runLocked, withMailboxLock, hc, hl, hbody]
  · simp only [List.length_reverse, seqWindow, List.length_map, List.length_range']
    omega
  · intro h0
    simp [listMessages, runLocked, withMailboxLock, hc, hl, hbody, h0, seqWindow]

/-- Claim C4 witness: on the three-message sample mailbox with limit 2, the
returned summaries are those of sequence numbers 3 and 2, newest first. -/
theorem listMessages_windowing_witness :
    (listMessages sampleEngine "INBOX" 2).1 = .ok [sampleMsg 3, sampleMsg 2] := by
  have h := (listMessages_windowing sampleEngine sampleMsg "INBOX" 2 rfl rfl
    (fun a b => rfl) (by decide)).1
  rw [h]
  rfl

theorem cleanMessageId_wrap (id : String) (h1 : id.data.head? ≠ some '<')
    (h2 : id.data.getLast? ≠ some '>') :
    cleanMessageId ("<" ++ id ++ ">") = cleanMessageId id := by
  have hdata : ("<" ++ id ++ ">").data = '<' :: (id.data ++ ['>']) := by
    rw [str_data_append, str_data_append]
    rfl
  simp only [cleanMessageId, hdata, List.head?_cons, List.tail_cons,
    eq_self_iff_true, if_true]
  rw [if_pos ((by simp : ((id.data ++ ['>']).getLast? = some '>'))),
    List.dropLast_concat, if_neg h1, if_neg h2]

/-- Claim C7: a numeric identifier resolves to itself without consulting the
search oracle; bracket stripping makes `"<id>"` and `"id"` issue the same
search, so the whole header operation returns the same result on both; and
an empty search result yields the not-found value (`null`), not an error. -/
theorem identifier_resolution_roundtrip (eng : Engine) (folder : String)
    (hn : Option String) (n : Nat) (id : String)
    (h1 : id.data.head? ≠ some '<') (h2 : id.data.getLast? ≠ some '>') :
    (∀ s₁ s₂ : String → Except Unit (List Nat),
      resolveIdentifier s₁ (.num n) = .ok (some n) ∧
      resolveIdentifier s₁ (.num n) = resolveIdentifier s₂ (.num n)) ∧
    cleanMessageId ("<" ++ id ++ ">") = cleanMessageId id ∧
    getMessageHeaders eng folder (.str ("<" ++ id ++ ">")) hn =
      getMessageHeaders eng folder (.str id) hn ∧
    (eng.search (cleanMessageId id) = .ok [] →
      getMessageHeadersBody eng (.str id) hn = .ok .null) := by
  have hclean := cleanMessageId_wrap id h1 h2
  refine ⟨fun s₁ s₂ => ⟨rfl, rfl⟩, hclean, ?_, ?_⟩
  · simp [getMessageHeaders, getMessageHeadersBody, resolveIdentifier, hclean]
  · intro hs
    simp [getMessageHeadersBody, resolveIdentifier, hs]

/-- Claim C7 witness: the bracketed and bare forms of a concrete Message-ID
reduce to the same search key. -/
theorem identifier_resolution_roundtrip_witness :
    cleanMessageId ("<" ++ "mid@example.com" ++ ">") =
      cleanMessageId "mid@example.com" :=
  (identifier_resolution_roundtrip sampleEngine "INBOX" none 5 "mid@example.com"
    (by decide) (by decide)).2.1

theorem str_eq_iff_data (a b : String) : a = b ↔ a.data = b.data := by
  constructor
  · intro h; rw [h]
  · intro h; rcases a with ⟨la⟩; rcases b with ⟨lb⟩; exact congrArg String.mk h

theorem str_empty_data : ("" : String).data = [] := rfl

theorem str_append_assoc (a b c : String) : a ++ b ++ c = a ++ (b ++ c) := by
  rw [str_eq_iff_data]
  simp [str_data_append]

theorem str_append_empty (a : String) : a ++ "" = a := by
  rw [str_eq_iff_data]
  simp [str_data_append, str_empty_data]

theorem map_fix {α : Type} (f : α → α) (l : List α) (h : ∀ x ∈ l, f x = x) :
    l.map f = l := by
  induction l with
  | nil => rfl
  | cons x xs ih =>
    rw [List.map_cons, h x (List.mem_cons_self x xs),
      ih (fun y hy => h y (List.mem_cons_of_mem x hy))]

theorem splitCharList_ne_nil (sep : Char) (l : List Char) :
    splitCharList sep l ≠ [] := by
  cases l with
  | nil => simp [splitCharList]
  | cons c rest =>
    unfold splitCharList
    split
    · simp
    · split <;> simp

theorem splitCharList_no_sep (sep : Char) (l : List Char) :
    ∀ m ∈ splitCharList sep l, sep ∉ m := by
  induction l with
  | nil =>
    intro m hm
    simp [splitCharList] at hm
    simp [hm]
  | cons c rest ih =>
    intro m hm
    unfold splitCharList at hm
    by_cases h : c = sep
    · rw [if_pos h] at hm
      rcases List.mem_cons.mp hm with h1 | h1
      · simp [h1]
      · exact ih m h1
    · rw [if_neg h] at hm
      rcases hsp : splitCharList sep rest with _ | ⟨hd, tl⟩
      · exact absurd hsp (splitCharList_ne_nil sep rest)
      · rw [hsp] at hm
        rcases List.mem_cons.mp hm with h1 | h1
        · subst h1
          intro hc
          rcases List.mem_cons.mp hc with h2 | h2
          · exact h h2.symm
          · exact ih hd (by rw [hsp]; exact List.mem_cons_self hd tl) h2
        · exact ih m (by rw [hsp]; exact List.mem_cons.mpr (Or.inr h1))

theorem splitCharList_chars (sep : Char) (l : List Char) :
    ∀ m ∈ splitCharList sep l, ∀ c ∈ m, c ∈ l := by
  induction l with
  | nil =>
    intro m hm c hc
    simp [splitCharList] at hm
    subst hm
    simp at hc
  | cons a rest ih =>
    intro m hm c hc
    unfold splitCharList at hm
    by_cases h : a = sep
    · rw [if_pos h] at hm
      rcases List.mem_cons.mp hm with h1 | h1
      · subst h1; simp at hc
      · exact List.mem_cons.mpr (Or.inr (ih m h1 c hc))
    · rw [if_neg h] at hm
      rcases hsp : splitCharList sep rest with _ | ⟨hd, tl⟩
      · exact absurd hsp (splitCharList_ne_nil sep rest)
      · rw [hsp] at hm
        rcases List.mem_cons.mp hm with h1 | h1
        · subst h1
          rcases List.mem_cons.mp hc with h2 | h2
          · exact List.mem_cons.mpr (Or.inl h2)
          · exact List.mem_cons.mpr (Or.inr
              (ih hd (by rw [hsp]; exact List.mem_cons_self hd tl) c h2))
        · exact List.mem_cons.mpr (Or.inr
            (ih m (by rw [hsp]; exact List.mem_cons.mpr (Or.inr h1)) c hc))

theorem joinCharList_splitCharList (sep : Char) (l : List Char) :
    joinCharList sep (splitCharList sep l) = l := by
  induction l with
  | nil => rfl
  | cons c rest ih =>
    unfold splitCharList
    by_cases h : c = sep
    · rw [if_pos h]
      rcases hsp : splitCharList sep rest with _ | ⟨hd, tl⟩
      · exact absurd hsp (splitCharList_ne_nil sep rest)
      · rw [hsp] at ih
        simp [joinCharList, ih, h]
    · rw [if_neg h]
      rcases hsp : splitCharList sep rest with _ | ⟨hd, tl⟩
      · exact absurd hsp (splitCharList_ne_nil sep rest)
      · rw [hsp] at ih
        show joinCharList sep ((c :: hd) :: tl) = c :: rest
        cases tl with
        | nil =>
          simp only [joinCharList] at ih ⊢
          rw [ih]
        | cons t ts =>
          show (c :: hd) ++ sep :: joinCharList sep (t :: ts) = c :: rest
          rw [List.cons_append]
          rw [show hd ++ sep :: joinCharList sep (t :: ts) =
            joinCharList sep (hd :: t :: ts) from rfl]
          rw [ih]

theorem splitCharList_append_sep (sep : Char) (m r : List Char) (h : sep ∉ m) :
    splitCharList sep (m ++ sep :: r) = m :: splitCharList sep r := by
  induction m with
  | nil => simp [splitCharList]
  | cons c cs ih =>
    have hc : c ≠ sep := fun hh => h (by simp [hh])
    have hcs : sep ∉ cs := fun hh => h (by simp [hh])
    have hstep : splitCharList sep ((c :: cs) ++ sep :: r) =
        match splitCharList sep (cs ++ sep :: r) with
        | [] => [[c]]
        | hd :: tl => (c :: hd) :: tl := by
      rw [List.cons_append]
      show (if c = sep then [] :: splitCharList sep (cs ++ sep :: r)
        else match splitCharList sep (cs ++ sep :: r) with
          | [] => [[c]]
          | hd :: tl => (c :: hd) :: tl) = _
      rw [if_neg hc]
    rw [hstep, ih hcs]

theorem splitCharList_no_sep_eq (sep : Char) (m : List Char) (h : sep ∉ m) :
    splitCharList sep m = [m] := by
  induction m with
  | nil => rfl
  | cons c cs ih =>
    have hc : c ≠ sep := fun hh => h (by simp [hh])
    have hcs : sep ∉ cs := fun hh => h (by simp [hh])
    have hstep : splitCharList sep (c :: cs) =
        match splitCharList sep cs with
        | [] => [[c]]
        | hd :: tl => (c :: hd) :: tl := by
      show (if c = sep then [] :: splitCharList sep cs
        else match splitCharList sep cs with
          | [] => [[c]]
          | hd :: tl => (c :: hd) :: tl) = _
      rw [if_neg hc]
    rw [hstep, ih hcs]

theorem splitCharList_joinCharList (sep : Char) (parts : List (List Char))
    (hne : parts ≠ []) (h : ∀ m ∈ parts, sep ∉ m) :
    splitCharList sep (joinCharList sep parts) = parts := by
  induction parts with
  | nil => exact absurd rfl hne
  | cons m rest ih =>
    cases rest with
    | nil =>
      simp only [joinCharList]
      exact splitCharList_no_sep_eq sep m (h m (by simp))
    | cons m2 rs =>
      rw [show joinCharList sep (m :: m2 :: rs) =
        m ++ sep :: joinCharList sep (m2 :: rs) from rfl]
      rw [splitCharList_append_sep sep m _ (h m (by simp))]
      rw [ih (by simp) (fun x hx => h x (by simp [hx]))]

theorem joinCharList_chars (sep : Char) (parts : List (List Char)) :
    ∀ c ∈ joinCharList sep parts, c = sep ∨ ∃ m ∈ parts, c ∈ m := by
  induction parts with
  | nil => intro c hc; simp [joinCharList] at hc
  | cons m rest ih =>
    cases rest with
    | nil =>
      intro c hc
      simp only [joinCharList] at hc
      exact Or.inr ⟨m, by simp, hc⟩
    | cons m2 rs =>
      intro c hc
      rw [show joinCharList sep (m :: m2 :: rs) =
        m ++ sep :: joinCharList sep (m2 :: rs) from rfl] at hc
      rcases List.mem_append.mp hc with h1 | h1
      · exact Or.inr ⟨m, by simp, h1⟩
      · rcases List.mem_cons.mp h1 with h2 | h2
        · exact Or.inl h2
        · rcases ih c h2 with h3 | ⟨mm, hmm, hcm⟩
          · exact Or.inl h3
          · exact Or.inr ⟨mm, List.mem_cons_of_mem m hmm, hcm⟩

theorem normChar_idem (c : Char) : normChar (normChar c) = normChar c := by
  unfold normChar
  by_cases h : c = '/' ∨ c = '\\'
  · rw [if_pos h]
    simp
  · rw [if_neg h, if_neg h]

theorem mem_jsSplit_data (s : String) (sep : Char) (m : String)
    (hm : m ∈ jsSplit s sep) : m.data ∈ splitCharList sep s.data := by
  rcases List.mem_map.mp hm with ⟨piece, hp, he⟩
  rw [← he]
  exact hp

theorem normalizeFolderPath_data (p : String) :
    (normalizeFolderPath p).data =
      joinCharList '/' (((jsSplit (normalizeSeparators p) '/').filter
        (fun s => s ≠ "")).map String.data) := rfl

theorem normalizeFolderPath_fixed (p : String) :
    normalizeSeparators (normalizeFolderPath p) = normalizeFolderPath p := by
  rw [str_eq_iff_data]
  show (normalizeFolderPath p).data.map normChar = (normalizeFolderPath p).data
  apply map_fix
  intro c hc
  rw [normalizeFolderPath_data] at hc
  rcases joinCharList_chars '/' _ c hc with h1 | ⟨md, hmd, hcm⟩
  · rw [h1]; decide
  · rcases List.mem_map.mp hmd with ⟨m, hm, he⟩
    have hd : m.data ∈ splitCharList '/' (normalizeSeparators p).data :=
      mem_jsSplit_data _ _ _ (List.mem_filter.mp hm).1
    have hc2 : c ∈ (normalizeSeparators p).data := by
      apply splitCharList_chars '/' _ m.data hd
      rw [he]; exact hcm
    have hc3 : c ∈ p.data.map normChar := hc2
    rcases List.mem_map.mp hc3 with ⟨c0, _, hc0⟩
    rw [← hc0]
    exact normChar_idem c0

theorem folderExistsOn_iff (fs : List String) (p : String) :
    folderExistsOn fs p = true ↔ normalizeSeparators p ∈ fs := by
  unfold folderExistsOn folderExists serverStatus
  by_cases h : normalizeSeparators p ∈ fs
  · simp [h]
  · simp [h]

theorem jsJoin_singleton (s : String) : jsJoin '/' [s] = s := str_mk_data s

theorem jsJoin_cons (a b : String) (rest : List String) :
    jsJoin '/' (a :: b :: rest) = a ++ "/" ++ jsJoin '/' (b :: rest) := by
  rw [str_eq_iff_data, str_data_append, str_data_append]
  show a.data ++ '/' :: joinCharList '/' (b.data :: rest.map String.data) =
    a.data ++ "/".data ++ (jsJoin '/' (b :: rest)).data
  rw [List.append_assoc]
  rfl

theorem jsJoin_eq_head_sepJoinTail (rest : List String) :
    ∀ s : String, jsJoin '/' (s :: rest) = s ++ sepJoinTail rest := by
  induction rest with
  | nil =>
    intro s
    show jsJoin '/' [s] = s ++ ""
    rw [str_append_empty]
    exact jsJoin_singleton s
  | cons r rs ih =>
    intro s
    rw [jsJoin_cons, ih r]
    rw [str_eq_iff_data]
    simp [str_data_append, sepJoinTail, List.append_assoc]

theorem pathFold_ne_empty_eq (segs : List String) :
    ∀ acc : String, acc ≠ "" → pathFold acc segs = acc ++ sepJoinTail segs := by
  induction segs with
  | nil =>
    intro acc _
    show acc = acc ++ ""
    rw [str_append_empty]
  | cons x xs ih =>
    intro acc hacc
    show pathFold (extendPath acc x) xs = acc ++ sepJoinTail (x :: xs)
    rw [extendPath, if_neg hacc]
    have hne : acc ++ "/" ++ x ≠ "" := by
      intro hcontra
      have hdat := congrArg String.data hcontra
      rw [str_data_append, str_data_append, str_empty_data] at hdat
      simp at hdat
    rw [ih (acc ++ "/" ++ x) hne]
    rw [str_eq_iff_data]
    simp [str_data_append, sepJoinTail, List.append_assoc]

theorem pathFold_empty_eq (segs : List String) (hne : segs ≠ [])
    (hall : ∀ s ∈ segs, s ≠ "") :
    pathFold "" segs = jsJoin '/' segs := by
  cases segs with
  | nil => exact absurd rfl hne
  | cons s rest =>
    show pathFold (extendPath "" s) rest = jsJoin '/' (s :: rest)
    rw [extendPath, if_pos rfl]
    rw [pathFold_ne_empty_eq rest s (hall s (List.mem_cons_self s rest))]
    exact (jsJoin_eq_head_sepJoinTail rest s).symm

theorem jsJoin_ne_empty (parts : List String) (hne : parts ≠ [])
    (hall : ∀ s ∈ parts, s ≠ "") : jsJoin '/' parts ≠ "" := by
  cases parts with
  | nil => exact absurd rfl hne
  | cons s rest =>
    rw [jsJoin_eq_head_sepJoinTail]
    intro hcontra
    have hdat := congrArg String.data hcontra
    rw [str_data_append, str_empty_data] at hdat
    rcases List.append_eq_nil.mp hdat with ⟨h1, _⟩
    exact hall s (List.mem_cons_self s rest) (by rw [str_eq_iff_data]; simpa using h1)

theorem jsJoin_append (B : List String) :
    ∀ A : List String, A ≠ [] →
      jsJoin '/' (A ++ B) = jsJoin '/' A ++ sepJoinTail B := by
  intro A
  induction A with
  | nil => intro hA; exact absurd rfl hA
  | cons a A' ih =>
    intro _
    cases A' with
    | nil =>
      show jsJoin '/' (a :: B) = jsJoin '/' [a] ++ sepJoinTail B
      rw [jsJoin_singleton, jsJoin_eq_head_sepJoinTail]
    | cons a2 A2 =>
      have h1 : ((a :: a2 :: A2) ++ B) = a :: a2 :: (A2 ++ B) := by simp
      rw [h1, jsJoin_cons, jsJoin_cons]
      have h2 : (a2 :: (A2 ++ B)) = (a2 :: A2) ++ B := by simp
      rw [h2, ih (by simp)]
      rw [str_eq_iff_data]
      simp [str_data_append, List.append_assoc]

theorem pathFold_take_drop (l : List String) (n : Nat) (hne : l ≠ [])
    (hall : ∀ s ∈ l, s ≠ "") :
    pathFold (jsJoin '/' (l.take n)) (l.drop n) = jsJoin '/' l := by
  cases n with
  | zero =>
    show pathFold (jsJoin '/' []) l = jsJoin '/' l
    exact pathFold_empty_eq l hne hall
  | succ m =>
    have htake_ne : l.take (m + 1) ≠ [] := by
      cases l with
      | nil => exact absurd rfl hne
      | cons s rest => simp [List.take]
    have hjoin_ne : jsJoin '/' (l.take (m + 1)) ≠ "" :=
      jsJoin_ne_empty _ htake_ne (fun s hs => hall s (List.take_subset (m + 1) l hs))
    rw [pathFold_ne_empty_eq (l.drop (m + 1)) _ hjoin_ne]
    rw [← jsJoin_append (l.drop (m + 1)) (l.take (m + 1)) htake_ne]
    rw [List.take_append_drop]

theorem makeSegs_mem (segs : List String) :
    ∀ (fs : List String) (parent : String), segs ≠ [] →
      pathFold parent segs ∈ (makeSegs fs parent segs).1 := by
  induction segs with
  | nil => intro fs parent h; exact absurd rfl h
  | cons seg rest ih =>
    intro fs parent _
    cases rest with
    | nil => exact List.mem_cons_self _ _
    | cons r2 rs =>
      show pathFold (extendPath parent seg) (r2 :: rs) ∈
        (makeSegs (extendPath parent seg :: fs) (extendPath parent seg) (r2 :: rs)).1
      exact ih _ _ (by simp)

theorem folderMakeLoop_ok_mem (allSegs : List String) (hne : allSegs ≠ [])
    (hall : ∀ s ∈ allSegs, s ≠ "") :
    ∀ (n : Nat) (fs : List String), n ≤ allSegs.length →
      (folderMakeLoop fs allSegs n).ok = true ∧
      jsJoin '/' allSegs ∈ (folderMakeLoop fs allSegs n).fs := by
  intro n
  induction n with
  | zero =>
    intro fs _
    refine ⟨rfl, ?_⟩
    show jsJoin '/' allSegs ∈ (makeSegs fs "" allSegs).1
    have h := makeSegs_mem allSegs fs "" hne
    rwa [pathFold_empty_eq allSegs hne hall] at h
  | succ m ih =>
    intro fs hlen
    have hstep : folderMakeLoop fs allSegs (m + 1) =
        if folderExistsOn fs (jsJoin '/' (allSegs.take m)) then
          ⟨true, (makeSegs fs (jsJoin '/' (allSegs.take m)) (allSegs.drop m)).1,
            (makeSegs fs (jsJoin '/' (allSegs.take m)) (allSegs.drop m)).2⟩
        else folderMakeLoop fs allSegs m := rfl
    rw [hstep]
    by_cases hex : folderExistsOn fs (jsJoin '/' (allSegs.take m)) = true
    · rw [if_pos hex]
      refine ⟨rfl, ?_⟩
      have hdrop : allSegs.drop m ≠ [] := by
        intro hc
        rw [List.drop_eq_nil_iff] at hc
        omega
      have h := makeSegs_mem (allSegs.drop m) fs (jsJoin '/' (allSegs.take m)) hdrop
      rwa [pathFold_take_drop allSegs m hne hall] at h
    · rw [if_neg hex]
      exact ih fs (by omega)

theorem jsSplit_norm (p : String) (hp : normalizeFolderPath p ≠ "") :
    jsSplit (normalizeFolderPath p) '/' =
      (jsSplit (normalizeSeparators p) '/').filter (fun s => s ≠ "") := by
  have hfil_ne : (jsSplit (normalizeSeparators p) '/').filter (fun s => s ≠ "") ≠ [] := by
    intro hc
    apply hp
    show jsJoin '/' ((jsSplit (normalizeSeparators p) '/').filter (fun s => s ≠ "")) = ""
    rw [hc]
    rfl
  have hnosep : ∀ md ∈ ((jsSplit (normalizeSeparators p) '/').filter
      (fun s => s ≠ "")).map String.data, '/' ∉ md := by
    intro md hmd
    rcases List.mem_map.mp hmd with ⟨m, hm, he⟩
    rw [← he]
    exact splitCharList_no_sep '/' (normalizeSeparators p).data m.data
      (mem_jsSplit_data _ _ _ (List.mem_filter.mp hm).1)
  have hmap_ne : ((jsSplit (normalizeSeparators p) '/').filter
      (fun s => s ≠ "")).map String.data ≠ [] := by
    intro hc
    exact hfil_ne (List.map_eq_nil_iff.mp hc)
  show (splitCharList '/' (normalizeFolderPath p).data).map
    (fun l => ((⟨l⟩ : String))) = _
  rw [normalizeFolderPath_data,
    splitCharList_joinCharList '/' _ hmap_ne hnosep, List.map_map]
  apply map_fix
  intro m _
  exact str_mk_data m

theorem jsSplit_jsJoin_norm (p : String) :
    jsJoin '/' (jsSplit (normalizeFolderPath p) '/') = normalizeFolderPath p := by
  rw [str_eq_iff_data]
  show joinCharList '/' (((splitCharList '/' (normalizeFolderPath p).data).map
      (fun l => ((⟨l⟩ : String)))).map String.data) = (normalizeFolderPath p).data
  rw [List.map_map]
  rw [map_fix (String.data ∘ fun l => ((⟨l⟩ : String)))
    (splitCharList '/' (normalizeFolderPath p).data) (fun x _ => rfl)]
  exact joinCharList_splitCharList '/' (normalizeFolderPath p).data

theorem folderMake_ok_and_mem (fs : List String) (p : String)
    (hp : normalizeFolderPath p ≠ "") :
    (folderMake fs p).ok = true ∧
      normalizeFolderPath p ∈ (folderMake fs p).fs := by
  have hsplit := jsSplit_norm p hp
  have hne : jsSplit (normalizeFolderPath p) '/' ≠ [] := by
    rw [hsplit]
    intro hc
    apply hp
    show jsJoin '/' ((jsSplit (normalizeSeparators p) '/').filter (fun s => s ≠ "")) = ""
    rw [hc]
    rfl
  have hall : ∀ s ∈ jsSplit (normalizeFolderPath p) '/', s ≠ "" := by
    rw [hsplit]
    intro s hs
    simpa using (List.mem_filter.mp hs).2
  have hfm : folderMake fs p =
      if folderExistsOn fs (normalizeFolderPath p) then
        (⟨true, fs, []⟩ : MakeResult)
      else folderMakeLoop fs (jsSplit (normalizeFolderPath p) '/')
        (jsSplit (normalizeFolderPath p) '/').length := rfl
  rw [hfm]
  by_cases hex : folderExistsOn fs (normalizeFolderPath p) = true
  · rw [if_pos hex]
    refine ⟨rfl, ?_⟩
    have hmem := (folderExistsOn_iff fs (normalizeFolderPath p)).mp hex
    rwa [normalizeFolderPath_fixed] at hmem
  · rw [if_neg hex]
    have h := folderMakeLoop_ok_mem (jsSplit (normalizeFolderPath p) '/') hne hall
      (jsSplit (normalizeFolderPath p) '/').length fs (le_refl _)
    rwa [jsSplit_jsJoin_norm] at h

/-- Claim C5: `folderMake`'s sanitization collapses consecutive separators
and strips leading/trailing ones — `"/A//B/"` and `"A/B"` normalize to the
identical two-segment path, and the sanitized segment list never contains an
empty segment — and `folderMake` called twice on the same path answers
`true` both times, the second call taking the already-exists branch: it
creates nothing and leaves the mailbox store unchanged. -/
theorem folderMake_normalization_idempotent (fs : List String) (p : String)
    (hp : normalizeFolderPath p ≠ "") :
    normalizeFolderPath "/A//B/" = "A/B" ∧
    normalizeFolderPath "A/B" = "A/B" ∧
    "" ∉ jsSplit (normalizeFolderPath p) '/' ∧
    (folderMake fs p).ok = true ∧
    (folderMake (folderMake fs p).fs p).ok = true ∧
    (folderMake (folderMake fs p).fs p).created = [] ∧
    (folderMake (folderMake fs p).fs p).fs = (folderMake fs p).fs := by
  have h1 := folderMake_ok_and_mem fs p hp
  have hsecond : folderMake (folderMake fs p).fs p =
      ⟨true, (folderMake fs p).fs, []⟩ := by
    have hfm : folderMake (folderMake fs p).fs p =
        if folderExistsOn (folderMake fs p).fs (normalizeFolderPath p) then
          (⟨true, (folderMake fs p).fs, []⟩ : MakeResult)
        else folderMakeLoop (folderMake fs p).fs
          (jsSplit (normalizeFolderPath p) '/')
          (jsSplit (normalizeFolderPath p) '/').length := rfl
    have hex : folderExistsOn (folderMake fs p).fs (normalizeFolderPath p) = true := by
      rw [folderExistsOn_iff, normalizeFolderPath_fixed]
      exact h1.2
    rw [hfm, if_pos hex]
  refine ⟨by decide, by decide, ?_, h1.1, ?_, ?_, ?_⟩
  · rw [jsSplit_norm p hp]
    intro hc
    have hbad := (List.mem_filter.mp hc).2
    simp at hbad
  · rw [hsecond]
  · rw [hsecond]
  · rw [hsecond]

/-- Claim C5 witness: evaluation on the sample path `"/A//B/"` starting from
an empty mailbox store — the second call creates nothing. -/
theorem folderMake_normalization_idempotent_witness :
    (folderMake (folderMake [] "/A//B/").fs "/A//B/").created = [] :=
  (folderMake_normalization_idempotent [] "/A//B/" (by decide)).2.2.2.2.2.1

/-- Claim C9: `folderExists` returns `true` exactly when the status query
completes with a non-null result; the `NONEXISTENT` protocol error yields
`false`, and every other protocol error also yields `false` — the boolean
contract never raises and collapses "confirmed absent" and "could not
confirm" into `false`. -/
theorem folderExists_boolean_contract (statusOf : String → StatusOutcome)
    (p : String) :
    (folderExists statusOf p = true ↔
      statusOf (normalizeSeparators p) = .ok (some ())) ∧
    (∀ code, statusOf (normalizeSeparators p) = .err code →
      folderExists statusOf p = false) := by
  refine ⟨?_, ?_⟩
  · rcases h : statusOf (normalizeSeparators p) with st | code
    · rcases st with _ | _
      · simp [folderExists, h]
      · simp [folderExists, h]
    · simp [folderExists, h]
  · intro code hc
    simp [folderExists, hc]

/-- Claim C9 witness: a status oracle that raises `NONEXISTENT` makes
`folderExists` report `false`. -/
theorem folderExists_boolean_contract_witness :
    folderExists (fun _ => StatusOutcome.err "NONEXISTENT") "INBOX" = false :=
  (folderExists_boolean_contract (fun _ => StatusOutcome.err "NONEXISTENT")
    "INBOX").2 "NONEXISTENT" rfl

theorem find?_append_none {α : Type} (p : α → Bool) (l₁ l₂ : List α)
    (h : l₁.find? p = none) : (l₁ ++ l₂).find? p = l₂.find? p := by
  induction l₁ with
  | nil => rfl
  | cons a l ih =>
    by_cases hpa : p a = true
    · rw [List.find?_cons_of_pos _ hpa] at h
      cases h
    · rw [List.find?_cons_of_neg _ hpa] at h
      rw [List.cons_append, List.find?_cons_of_neg _ hpa]
      exact ih h

theorem find?_append_some {α : Type} (p : α → Bool) (l₁ l₂ : List α)
    (a : α) (h : l₁.find? p = some a) : (l₁ ++ l₂).find? p = some a := by
  induction l₁ with
  | nil => cases h
  | cons b l ih =>
    by_cases hpb : p b = true
    · rw [List.find?_cons_of_pos _ hpb] at h
      rw [List.cons_append, List.find?_cons_of_pos _ hpb]
      exact h
    · rw [List.find?_cons_of_neg _ hpb] at h
      rw [List.cons_append, List.find?_cons_of_neg _ hpb]
      exact ih h

theorem getImapClient_found (st : CacheState) (c : ClientConfig)
    (e : String × ClientInst)
    (h : st.entries.find? (fun x => x.1 = configKey c) = some e) :
    getImapClient st c = (e.2, st) := by
  show (match st.entries.find? (fun x => x.1 = configKey c) with
    | some e => (e.2, st)
    | none => ((⟨st.nextId, c⟩ : ClientInst),
        (⟨st.entries ++ [(configKey c, ⟨st.nextId, c⟩)], st.nextId + 1⟩ :
          CacheState))) = (e.2, st)
  rw [h]

theorem getImapClient_fresh (st : CacheState) (c : ClientConfig)
    (h : st.entries.find? (fun x => x.1 = configKey c) = none) :
    getImapClient st c = (⟨st.nextId, c⟩,
      ⟨st.entries ++ [(configKey c, ⟨st.nextId, c⟩)], st.nextId + 1⟩) := by
  show (match st.entries.find? (fun x => x.1 = configKey c) with
    | some e => (e.2, st)
    | none => ((⟨st.nextId, c⟩ : ClientInst),
        (⟨st.entries ++ [(configKey c, ⟨st.nextId, c⟩)], st.nextId + 1⟩ :
          CacheState))) =
    ((⟨st.nextId, c⟩ : ClientInst),
      (⟨st.entries ++ [(configKey c, ⟨st.nextId, c⟩)], st.nextId + 1⟩ :
        CacheState))
  rw [h]

theorem getImapClient_second_call (st : CacheState) (A B : ClientConfig)
    (hk : configKey A = configKey B) :
    (getImapClient (getImapClient st A).2 B).1 = (getImapClient st A).1 := by
  rcases hfa : st.entries.find? (fun x => x.1 = configKey A) with _ | e
  · have hfb : (st.entries ++ [(configKey A, (⟨st.nextId, A⟩ : ClientInst))]).find?
        (fun x => x.1 = configKey B) = some (configKey A, ⟨st.nextId, A⟩) := by
      rw [find?_append_none _ _ _ (by rw [← hk]; exact hfa)]
      rw [List.find?_cons_of_pos _ (by simp [hk])]
    simp only [getImapClient_fresh st A hfa]
    rw [getImapClient_found _ B _ hfb]
  · have hfb : st.entries.find? (fun x => x.1 = configKey B) = some e := by
      rw [← hk]
      exact hfa
    simp only [getImapClient_found st A e hfa]
    rw [getImapClient_found st B e hfb]

theorem getImapClient_distinct_ids (st : CacheState) (hwf : cacheWF st)
    (A B : ClientConfig) (hk : configKey A ≠ configKey B) :
    (getImapClient (getImapClient st A).2 B).1.id ≠ (getImapClient st A).1.id := by
  rcases hfa : st.entries.find? (fun x => x.1 = configKey A) with _ | e
  · rcases hfb : st.entries.find? (fun x => x.1 = configKey B) with _ | e2
    · have hfb2 : (st.entries ++
          [(configKey A, (⟨st.nextId, A⟩ : ClientInst))]).find?
          (fun x => x.1 = configKey B) = none := by
        rw [find?_append_none _ _ _ hfb]
        rw [List.find?_cons_of_neg _ (by simpa using hk)]
        rfl
      simp only [getImapClient_fresh st A hfa]
      rw [getImapClient_fresh _ B hfb2]
      simp
    · have hfb2 : (st.entries ++
          [(configKey A, (⟨st.nextId, A⟩ : ClientInst))]).find?
          (fun x => x.1 = configKey B) = some e2 := find?_append_some _ _ _ _ hfb
      simp only [getImapClient_fresh st A hfa]
      rw [getImapClient_found _ B e2 hfb2]
      have hlt := hwf.1 e2 (List.mem_of_find?_eq_some hfb)
      simp only []
      omega
  · rcases hfb : st.entries.find? (fun x => x.1 = configKey B) with _ | e2
    · simp only [getImapClient_found st A e hfa]
      rw [getImapClient_fresh st B hfb]
      have hlt := hwf.1 e (List.mem_of_find?_eq_some hfa)
      simp only []
      omega
    · simp only [getImapClient_found st A e hfa]
      rw [getImapClient_found st B e2 hfb]
      have hkeyA : e.1 = configKey A := by simpa using List.find?_some hfa
      have hkeyB : e2.1 = configKey B := by simpa using List.find?_some hfb
      exact hwf.2 e2 (List.mem_of_find?_eq_some hfb) e
        (List.mem_of_find?_eq_some hfa)
        (by rw [hkeyA, hkeyB]; exact fun hh => hk hh.symm)

/-- Claim C8 (counterexample): two configurations differing in host, port
and user can still collide on the derived key `host:port:user` when a field
contains a colon, and then `getImapClient` hands back the identical cached
instance rather than distinct ones. -/
theorem getImapClient_distinct_counterexample :
    (cfgCollideA.host, cfgCollideA.port, cfgCollideA.user) ≠
      (cfgCollideB.host, cfgCollideB.port, cfgCollideB.user) ∧
    configKey cfgCollideA = configKey cfgCollideB ∧
    (getImapClient (getImapClient emptyCache cfgCollideA).2 cfgCollideB).1 =
      (getImapClient emptyCache cfgCollideA).1 := by
  refine ⟨by decide, by decide, ?_⟩
  rfl

/-- Claim C8 (amended): on a well-formed cache, sequential `getImapClient`
calls follow the derived key `host:port:user`: configurations agreeing on
(host, port, user) get the identical instance, and configurations whose
derived keys differ — which holds for configurations differing in any of
the three fields unless a colon inside a field makes the keys collide —
get distinct instances. -/
theorem getImapClient_cache_identity (st : CacheState) (hwf : cacheWF st)
    (A B : ClientConfig) :
    (A.host = B.host ∧ A.port = B.port ∧ A.user = B.user →
      (getImapClient (getImapClient st A).2 B).1 = (getImapClient st A).1) ∧
    (configKey A ≠ configKey B →
      (getImapClient (getImapClient st A).2 B).1.id ≠
        (getImapClient st A).1.id) := by
  constructor
  · intro h3
    apply getImapClient_second_call
    simp only [configKey, h3.1, h3.2.1, h3.2.2]
  · intro hk
    exact getImapClient_distinct_ids st hwf A B hk

/-- Claim C8 witness: repeated calls with the same configuration on the
empty cache return the identical instance. -/
theorem getImapClient_cache_identity_witness :
    (getImapClient (getImapClient emptyCache cfgSample).2 cfgSample).1 =
      (getImapClient emptyCache cfgSample).1 :=
  (getImapClient_cache_identity emptyCache (by simp [cacheWF, emptyCache])
    cfgSample cfgSample).1 ⟨rfl, rfl, rfl⟩

/-- Claim C10: the cached client's configuration is frozen at first
creation — with the key not yet cached, `getImapClient A` constructs the
instance from `A`, and a later call with any `B` agreeing on
(host, port, user) returns that exact instance, whose stored configuration
is still `A`: no field of `B` is ever applied to the cached instance. -/
theorem getImapClient_config_frozen (st : CacheState) (A B : ClientConfig)
    (hfresh : st.entries.find? (fun x => x.1 = configKey A) = none)
    (h3 : A.host = B.host ∧ A.port = B.port ∧ A.user = B.user) :
    (getImapClient st A).1.config = A ∧
    (getImapClient (getImapClient st A).2 B).1 = (getImapClient st A).1 ∧
    (getImapClient (getImapClient st A).2 B).1.config = A := by
  have hk : configKey A = configKey B := by
    simp only [configKey, h3.1, h3.2.1, h3.2.2]
  have hsecond := getImapClient_second_call st A B hk
  have hcfg : (getImapClient st A).1.config = A := by
    rw [getImapClient_fresh st A hfresh]
  exact ⟨hcfg, hsecond, by rw [hsecond]; exact hcfg⟩

/-- Claim C10 witness: after caching under the sample configuration, a call
with the same identity but a different password and secure flag still
returns the instance carrying the original configuration. -/
theorem getImapClient_config_frozen_witness :
    (getImapClient (getImapClient emptyCache cfgSample).2 cfgSampleB).1.config =
      cfgSample :=
  (getImapClient_config_frozen emptyCache cfgSample cfgSampleB rfl
    ⟨rfl, rfl, rfl⟩).2.2

end ImapLayer
